import Mathlib

/-!
Verification of the MIDI playback/export core of `src/js/midi-player.js`
(WA-MIDI-PLAYER-MULTI-INSTRUMENT), shallowly embedded in Lean 4.

JavaScript numbers are modelled as rationals (`ℚ`); MIDI ticks, pitches,
velocities, channels and program ids are `Nat` (the data model guarantees
they are non-negative integers).  The mutable `MIDIPlayer` instance is an
explicit state record, and its asynchronous instrument loading is modelled
by the cooperative single-threaded semantics the code relies on: a call
runs synchronously up to its first `await`, and fetch results are supplied
by an explicit outcome argument.
-/

/-- A tempo change collected from the tracks: `{tick, microsecondsPerBeat}`
(`midi-player.js`, e.g. lines 70-75). -/
structure TempoChange where
  tick : Nat
  microsecondsPerBeat : ℚ
deriving DecidableEq, Repr

/-- The raw MIDI events the player consumes (spec section 3, "RawEvent";
produced by the out-of-scope parser).  `other` stands for any further event
kind, which the player only ever reads the `.time` of. -/
inductive MIDIEvent where
  | tempo (time : Nat) (microsecondsPerBeat : ℚ)
  | programChange (time : Nat) (channel : Nat) (program : Nat)
  | noteOn (time : Nat) (channel : Nat) (note : Nat) (velocity : Nat)
  | noteOff (time : Nat) (channel : Nat) (note : Nat)
  | other (time : Nat)
deriving DecidableEq, Repr

/-- `event.time`: the absolute tick of an event. -/
def MIDIEvent.time : MIDIEvent → Nat
  | .tempo t _ => t
  | .programChange t _ _ => t
  | .noteOn t _ _ _ => t
  | .noteOff t _ _ => t
  | .other t => t

/-- The `for` loop of `ticksToSeconds` (lines 98-107): state is
`(seconds, currentTick, currentTempo)`; the loop `break`s at the first
change with `change.tick >= ticks`, and afterwards the remaining interval
is added (lines 109-110). -/
def ticksToSecondsGo (ticks : Nat) (ticksPerBeat : ℚ) :
    List TempoChange → ℚ → Nat → ℚ → ℚ
  | [], seconds, currentTick, currentTempo =>
      seconds + (((ticks : ℚ) - (currentTick : ℚ)) / ticksPerBeat) * (currentTempo / 1000000)
  | change :: rest, seconds, currentTick, currentTempo =>
      if ticks ≤ change.tick then
        seconds + (((ticks : ℚ) - (currentTick : ℚ)) / ticksPerBeat) * (currentTempo / 1000000)
      else
        ticksToSecondsGo ticks ticksPerBeat rest
          (seconds + (((change.tick : ℚ) - (currentTick : ℚ)) / ticksPerBeat) * (currentTempo / 1000000))
          change.tick change.microsecondsPerBeat

/-- `MIDIPlayer.ticksToSeconds(ticks, ticksPerBeat, tempoChanges)`
(lines 93-113): seconds start at 0, the walk starts at tick 0 with the
default tempo of 500000 microseconds per beat. -/
def ticksToSeconds (ticks : Nat) (ticksPerBeat : ℚ) (tempoChanges : List TempoChange) : ℚ :=
  ticksToSecondsGo ticks ticksPerBeat tempoChanges 0 0 500000

/-- Reference definition following the spec's words (section 4.1): start
with tempo 500000 at tick 0; walk the sorted changes whose tick is strictly
less than the target `ticks`, accumulating
`(change.tick − currentTick) / ticksPerBeat × (currentTempo / 1e6)` seconds
and advancing `currentTick`/`currentTempo`; then add the remaining interval
from `currentTick` to `ticks` at the final `currentTempo`. -/
def ticksToSecondsRef (ticks : Nat) (ticksPerBeat : ℚ) (tempoChanges : List TempoChange) : ℚ :=
  let walked := tempoChanges.takeWhile (fun c => c.tick < ticks)
  let final : ℚ × Nat × ℚ := walked.foldl
    (fun st c =>
      (st.1 + (((c.tick : ℚ) - (st.2.1 : ℚ)) / ticksPerBeat) * (st.2.2 / 1000000),
        c.tick, c.microsecondsPerBeat))
    (0, 0, 500000)
  final.1 + (((ticks : ℚ) - (final.2.1 : ℚ)) / ticksPerBeat) * (final.2.2 / 1000000)

/-- Boolean test that a change list is sorted ascending by tick, with every
tick at least `ct` (the claims' "sorted ascending by tick" hypothesis,
anchored at the walk's current tick). -/
def tempoTicksSortedFrom (ct : Nat) : List TempoChange → Bool
  | [] => true
  | c :: rest => decide (ct ≤ c.tick) && tempoTicksSortedFrom c.tick rest

/-- Insert a change after every element whose tick is less than or equal to
its own: the building block of the stable ascending sort below. -/
def insertTempoChange (c : TempoChange) : List TempoChange → List TempoChange
  | [] => [c]
  | d :: rest => if c.tick < d.tick then c :: d :: rest else d :: insertTempoChange c rest

/-- `tempoChanges.sort((a, b) => a.tick - b.tick)` (line 79 and its copies):
a stable ascending sort by tick — each element is inserted after already
placed elements with the same tick, preserving encounter order on ties as
`Array.prototype.sort` does. -/
def sortTempoChanges (l : List TempoChange) : List TempoChange :=
  l.foldl (fun acc c => insertTempoChange c acc) []

/-- Lines 68-79 (and their copies at 137-148, 492-503, 564-575): flatten the
`tempo` events of all tracks in encounter order, then sort by tick. -/
def collectTempoChanges (tracks : List (List MIDIEvent)) : List TempoChange :=
  sortTempoChanges (tracks.flatten.filterMap fun e =>
    match e with
    | .tempo t micro => some ⟨t, micro⟩
    | _ => none)

/-- `MIDIPlayer.calculateDuration` (lines 59-91): the maximum, over every
event of every track, of the unscaled `ticksToSeconds` of its tick, starting
from 0 (`maxTime` is only replaced when strictly exceeded, which coincides
with `max`). -/
def calculateDuration (tracks : List (List MIDIEvent)) (ticksPerBeat : ℚ) : ℚ :=
  let tempoChanges := collectTempoChanges tracks
  tracks.flatten.foldl (fun maxTime e => max maxTime (ticksToSeconds e.time ticksPerBeat tempoChanges)) 0

/-- A pending noteOn stored in a `noteMap` of `scheduleNotes` (lines
165-170) or `exportToWAV` (lines 585-590): `{note, velocity, startTime,
channel}`. -/
structure PendingNote where
  note : Nat
  velocity : Nat
  startTime : ℚ
  channel : Nat
deriving DecidableEq, Repr

/-- One scheduled note-fire of `scheduleNotes` (lines 171-185): the
arguments of the deferred `playNote(note, velocity, duration, channel)`
call together with the tempo-adjusted start time and the `setTimeout`
delay in milliseconds. -/
structure ScheduledNote where
  note : Nat
  velocity : Nat
  startTime : ℚ
  duration : ℚ
  channel : Nat
  delay : ℚ
deriving DecidableEq, Repr

/-- The event walk of `scheduleNotes` (lines 152-188) restricted to its
observable note output.  `timeOf` is the tempo-adjusted seconds of a tick
(`ticksToSeconds(...) / (this.tempo / 100)`, lines 154-155); every event
whose adjusted time is below `startTime` is skipped (line 157); the shared
`noteMap` is keyed by `note + '_' + channel`, a noteOn overwrites any
pending entry (line 165), and a noteOff emits a scheduled note exactly when
an entry is found, then deletes it (lines 172-185).  `tempo` and
`programChange` events only mutate state not visible in this output. -/
def schedGo (timeOf : Nat → ℚ) (startTime : ℚ) :
    List MIDIEvent → (Nat × Nat → Option PendingNote) → List ScheduledNote
  | [], _ => []
  | .noteOn t ch n v :: rest, noteMap =>
      let adjustedTime := timeOf t
      if adjustedTime < startTime then schedGo timeOf startTime rest noteMap
      else schedGo timeOf startTime rest
        (fun k => if k = (n, ch) then some ⟨n, v, adjustedTime, ch⟩ else noteMap k)
  | .noteOff t ch n :: rest, noteMap =>
      let adjustedTime := timeOf t
      if adjustedTime < startTime then schedGo timeOf startTime rest noteMap
      else
        match noteMap (n, ch) with
        | some noteOn =>
            ⟨noteOn.note, noteOn.velocity, noteOn.startTime,
              adjustedTime - noteOn.startTime, noteOn.channel,
              (noteOn.startTime - startTime) * 1000⟩ ::
              schedGo timeOf startTime rest (fun k => if k = (n, ch) then none else noteMap k)
        | none => schedGo timeOf startTime rest noteMap
  | _ :: rest, noteMap => schedGo timeOf startTime rest noteMap

/-- `MIDIPlayer.scheduleNotes(startTime)` (lines 133-189): one `noteMap`
and one output list are shared across all tracks, which are visited in
order with their events in order (the nested `forEach`, i.e. the flattened
event list). -/
def scheduleNotesList (tracks : List (List MIDIEvent)) (ticksPerBeat tempo startTime : ℚ) :
    List ScheduledNote :=
  let tempoChanges := collectTempoChanges tracks
  schedGo (fun t => ticksToSeconds t ticksPerBeat tempoChanges / (tempo / 100)) startTime
    tracks.flatten (fun _ => none)

/-- A pending noteOn of `exportToJSON` (lines 513-517): `{note, velocity,
time}` — the channel is not recorded. -/
structure ExportPending where
  note : Nat
  velocity : Nat
  time : ℚ
deriving DecidableEq, Repr

/-- One note of the structured export (lines 521-526):
`{note, time, duration, velocity}`. -/
structure ExportNote where
  note : Nat
  time : ℚ
  duration : ℚ
  velocity : Nat
deriving DecidableEq, Repr

/-- The per-track event walk of `exportToJSON` (lines 509-530).  The
`noteMap` is keyed by `event.note` alone (lines 513 and 519); a noteOn
overwrites any pending entry for the same pitch, and a noteOff emits a note
exactly when an entry for that pitch is found, regardless of channel. -/
def exportGo (timeOf : Nat → ℚ) :
    List MIDIEvent → (Nat → Option ExportPending) → List ExportNote
  | [], _ => []
  | .noteOn t _ n v :: rest, noteMap =>
      exportGo timeOf rest (fun k => if k = n then some ⟨n, v, timeOf t⟩ else noteMap k)
  | .noteOff t _ n :: rest, noteMap =>
      match noteMap n with
      | some noteOn =>
          ⟨noteOn.note, noteOn.time, timeOf t - noteOn.time, noteOn.velocity⟩ ::
            exportGo timeOf rest (fun k => if k = n then none else noteMap k)
      | none => exportGo timeOf rest noteMap
  | _ :: rest, noteMap => exportGo timeOf rest noteMap

/-- `MIDIPlayer.exportToJSON()` (lines 486-536): a fresh `noteMap` per
track, and event times are the **unscaled** `ticksToSeconds` seconds
(line 510).  The `tempo` argument mirrors the `this.tempo` field that is in
scope in the method; the method never reads it. -/
def exportToJSON (tracks : List (List MIDIEvent)) (ticksPerBeat : ℚ) (tempo : ℚ) :
    List (List ExportNote) :=
  let tempoChanges := collectTempoChanges tracks
  tracks.map (fun track =>
    exportGo (fun t => ticksToSeconds t ticksPerBeat tempoChanges) track (fun _ => none))

/-- A JavaScript value stored in the `this.instruments` cache: absent
(`undefined`), explicitly `null` (the failure marker of line 329), or a
loaded font object.  Only a font object is truthy. -/
inductive JSVal where
  | undef
  | nullv
  | font (handle : Nat)
deriving DecidableEq, Repr

/-- JavaScript truthiness of a cache entry (`if (this.instruments[program])`,
`instrument || this.instruments[0]`, ...). -/
def JSVal.truthy : JSVal → Bool
  | .font _ => true
  | _ => false

/-- One note queued into the offline context by `exportToWAV`
(lines 600-610): `player.queueWaveTable(offlineContext, offlineGain,
instrument, noteOn.startTime, noteOn.note, noteDuration, velocity / 127)`. -/
structure WavNote where
  startTime : ℚ
  note : Nat
  duration : ℚ
  volume : ℚ
deriving DecidableEq, Repr

/-- The per-track event walk of `exportToWAV` (lines 578-619).  The
`noteMap` is keyed by `note + '_' + channel`; `timeOf` is the scaled
seconds `ticksToSeconds(...) / (this.tempo / 100)` (line 582); on a
matching noteOff the note is queued only when an instrument resolves
(`this.instruments[program] || this.instruments[0]`, line 598) and a player
exists, with the drum program 128 substituted for channel 9 (line 597);
either way the pending entry is deleted. -/
def wavGo (instruments : Nat → JSVal) (hasPlayer : Bool) (channelPrograms : Nat → Nat)
    (timeOf : Nat → ℚ) :
    List MIDIEvent → (Nat × Nat → Option PendingNote) → List WavNote
  | [], _ => []
  | .noteOn t ch n v :: rest, noteMap =>
      wavGo instruments hasPlayer channelPrograms timeOf rest
        (fun k => if k = (n, ch) then some ⟨n, v, timeOf t, ch⟩ else noteMap k)
  | .noteOff t ch n :: rest, noteMap =>
      match noteMap (n, ch) with
      | some noteOn =>
          let program := if noteOn.channel = 9 then 128 else channelPrograms noteOn.channel
          let instrument :=
            if (instruments program).truthy then instruments program else instruments 0
          let tail := wavGo instruments hasPlayer channelPrograms timeOf rest
            (fun k => if k = (n, ch) then none else noteMap k)
          if instrument.truthy && hasPlayer then
            ⟨noteOn.startTime, noteOn.note, timeOf t - noteOn.startTime,
              (noteOn.velocity : ℚ) / 127⟩ :: tail
          else tail
      | none => wavGo instruments hasPlayer channelPrograms timeOf rest noteMap
  | _ :: rest, noteMap => wavGo instruments hasPlayer channelPrograms timeOf rest noteMap

/-- The notes `MIDIPlayer.exportToWAV()` queues into the offline rendering
context (lines 538-619): a fresh `noteMap` per track, times scaled by the
current tempo, outputs concatenated in track order. -/
def exportToWAVNotes (tracks : List (List MIDIEvent)) (ticksPerBeat tempo : ℚ)
    (instruments : Nat → JSVal) (hasPlayer : Bool) (channelPrograms : Nat → Nat) :
    List WavNote :=
  let tempoChanges := collectTempoChanges tracks
  (tracks.map (fun track =>
    wavGo instruments hasPlayer channelPrograms
      (fun t => ticksToSeconds t ticksPerBeat tempoChanges / (tempo / 100))
      track (fun _ => none))).flatten

/-- The same walk driven by the raw (unscaled) tempo-map seconds: the
reference the scaled start times of `exportToWAV` are compared against. -/
def exportToWAVNotesUnscaled (tracks : List (List MIDIEvent)) (ticksPerBeat : ℚ)
    (instruments : Nat → JSVal) (hasPlayer : Bool) (channelPrograms : Nat → Nat) :
    List WavNote :=
  let tempoChanges := collectTempoChanges tracks
  (tracks.map (fun track =>
    wavGo instruments hasPlayer channelPrograms
      (fun t => ticksToSeconds t ticksPerBeat tempoChanges)
      track (fun _ => none))).flatten

/-- The frame count of the offline render buffer of `exportToWAV`
(lines 550-554): `Math.ceil(sampleRate * duration)` with
`sampleRate = 44100` and the unscaled `this.duration`. -/
def wavBufferFrames (tracks : List (List MIDIEvent)) (ticksPerBeat : ℚ) : ℤ :=
  ⌈(44100 : ℚ) * calculateDuration tracks ticksPerBeat⌉

/-- A derived Note record, spec section 3:
`{pitch, velocity, channel, startSeconds, durationSeconds}`. -/
structure SpecNote where
  pitch : Nat
  velocity : Nat
  channel : Nat
  startSeconds : ℚ
  durationSeconds : ℚ
deriving DecidableEq, Repr

/-- Reference definition following the spec's words (section 4.2,
EventResolver): a mapping keyed by `(pitch, channel)` holds at most one
pending noteOn; a noteOn overwrites any pending entry for its key; a
noteOff emits a Note with `duration = offSeconds − onSeconds` exactly when
a pending entry exists for its key; a pending entry left at the end never
yields a Note. -/
def resolveNotesSpec (timeOf : Nat → ℚ) :
    List MIDIEvent → (Nat × Nat → Option PendingNote) → List SpecNote
  | [], _ => []
  | .noteOn t ch n v :: rest, pending =>
      resolveNotesSpec timeOf rest
        (fun k => if k = (n, ch) then some ⟨n, v, timeOf t, ch⟩ else pending k)
  | .noteOff t ch n :: rest, pending =>
      match pending (n, ch) with
      | some p =>
          ⟨p.note, p.velocity, p.channel, p.startTime, timeOf t - p.startTime⟩ ::
            resolveNotesSpec timeOf rest (fun k => if k = (n, ch) then none else pending k)
      | none => resolveNotesSpec timeOf rest pending
  | _ :: rest, pending => resolveNotesSpec timeOf rest pending

/-- The mutable fields of a `MIDIPlayer` instance relevant to the claims
(constructor, lines 4-33): transport flags and position, the pending timer
handles, the tempo scale, the instrument cache with its two loading
containers, the per-channel program map, and the presence of the
WebAudioFont player and of an audio context. -/
structure MIDIPlayerState where
  isPlaying : Bool
  isPaused : Bool
  currentTime : ℚ
  scheduledEvents : List Nat
  tempo : ℚ
  volume : ℚ
  instruments : Nat → JSVal
  channelPrograms : Nat → Nat
  loadingFonts : Nat → Bool
  loadingPromises : Nat → Bool
  hasPlayer : Bool
  hasAudioContext : Bool

/-- The state right after the constructor ran (lines 4-33): not playing,
empty caches, `tempo = 100`, `volume = 30`, all channel programs 0. -/
def initialPlayerState : MIDIPlayerState where
  isPlaying := false
  isPaused := false
  currentTime := 0
  scheduledEvents := []
  tempo := 100
  volume := 30
  instruments := fun _ => .undef
  channelPrograms := fun _ => 0
  loadingFonts := fun _ => false
  loadingPromises := fun _ => false
  hasPlayer := true
  hasAudioContext := true

/-- What a `loadInstrument` call is doing when it reaches its first
suspension point (or returns without suspending). -/
inductive LoadCont where
  | done
  | awaitShared
  | awaitFetch
deriving DecidableEq, Repr

/-- Result of the resource fetch plus script installation of
`_doLoadInstrument`: either the named font variable is found on `window`
(a handle), or any of the steps failed (HTTP error, missing variable). -/
inductive FetchOutcome where
  | ok (handle : Nat)
  | error
deriving DecidableEq, Repr

/-- The synchronous prefix of `MIDIPlayer.loadInstrument(program)`
(lines 248-266), up to its first suspension point.  If the cache entry is
truthy it returns at once (line 250); if a load is marked in flight and its
promise is stored, the call will await that shared promise (lines 253-259);
otherwise the program is added to `loadingFonts`, `_doLoadInstrument` runs
up to issuing its `fetch` (line 301), and the promise is stored — all
before any suspension.  The `Nat` counts resource fetches issued (0 or 1). -/
def loadInstrumentStep1 (s : MIDIPlayerState) (program : Nat) :
    MIDIPlayerState × LoadCont × Nat :=
  if (s.instruments program).truthy then (s, .done, 0)
  else if s.loadingFonts program && s.loadingPromises program then (s, .awaitShared, 0)
  else
    ({s with
        loadingFonts := fun k => if k = program then true else s.loadingFonts k,
        loadingPromises := fun k => if k = program then true else s.loadingPromises k},
      .awaitFetch, 1)

/-- The try/catch body of `_doLoadInstrument` (lines 299-331) applied to a
fetch outcome: on success the font is installed under `program`; on failure
the entry becomes the key-0 handle when `program !== 0` and piano is loaded
(lines 325-327), and `null` otherwise (line 329). -/
def doLoadInstrumentResult (s : MIDIPlayerState) (program : Nat) (outcome : FetchOutcome) :
    MIDIPlayerState :=
  match outcome with
  | .ok handle =>
      {s with instruments := fun k => if k = program then .font handle else s.instruments k}
  | .error =>
      if program ≠ 0 ∧ (s.instruments 0).truthy then
        {s with instruments := fun k => if k = program then s.instruments 0 else s.instruments k}
      else
        {s with instruments := fun k => if k = program then .nullv else s.instruments k}

/-- Completion of an in-flight load: `_doLoadInstrument` settles with
`outcome`, then the `finally` block of `loadInstrument` (lines 269-272)
removes the program from `loadingFonts` and `loadingPromises`. -/
def loadInstrumentFinish (s : MIDIPlayerState) (program : Nat) (outcome : FetchOutcome) :
    MIDIPlayerState :=
  let s1 := doLoadInstrumentResult s program outcome
  {s1 with
    loadingFonts := fun k => if k = program then false else s1.loadingFonts k,
    loadingPromises := fun k => if k = program then false else s1.loadingPromises k}

/-- A complete, uninterleaved `loadInstrument(program)` call: the
synchronous prefix, and — when it issued a fetch — the completion with the
given outcome.  Returns the final state and the number of fetches issued. -/
def loadInstrumentRun (s : MIDIPlayerState) (program : Nat) (outcome : FetchOutcome) :
    MIDIPlayerState × Nat :=
  match loadInstrumentStep1 s program with
  | (s1, .awaitFetch, n) => (loadInstrumentFinish s1 program outcome, n)
  | (s1, _, n) => (s1, n)

/-- Two concurrent `loadInstrument(program)` calls under the cooperative
single-threaded model (spec section 5): the first call runs synchronously
to its first suspension point, then the second does.  Returns the state,
both continuations, and the total number of fetches issued. -/
def twoConcurrentLoads (s : MIDIPlayerState) (program : Nat) :
    MIDIPlayerState × LoadCont × LoadCont × Nat :=
  let r1 := loadInstrumentStep1 s program
  let r2 := loadInstrumentStep1 r1.1 program
  (r2.1, r1.2.1, r2.2.1, r1.2.2 + r2.2.2)

/-- `MIDIPlayer.stop()` (lines 380-387): clear both flags, reset the
position to 0, cancel and drop every scheduled timer. -/
def MIDIPlayerState.stop (s : MIDIPlayerState) : MIDIPlayerState :=
  {s with isPlaying := false, isPaused := false, currentTime := 0, scheduledEvents := []}

/-- `MIDIPlayer.pause()` (lines 373-378): stop playing, set the paused
flag, cancel the scheduled timers; the position is left untouched. -/
def MIDIPlayerState.pause (s : MIDIPlayerState) : MIDIPlayerState :=
  {s with isPlaying := false, isPaused := true, scheduledEvents := []}

/-- The state effects of `MIDIPlayer.play(startTime)` (lines 115-131):
set the playing flag, clear the paused flag, set the position, and push the
timer handles registered by `scheduleNotes` (given here as `handles`). -/
def MIDIPlayerState.play (s : MIDIPlayerState) (startTime : ℚ) (handles : List Nat) :
    MIDIPlayerState :=
  {s with
    isPlaying := true
    isPaused := false
    currentTime := startTime
    scheduledEvents := s.scheduledEvents ++ handles}

/-- `MIDIPlayer.seek(time)` (lines 440-448): remember whether the player
was playing, `stop()`, set the position, and `play(time)` only in that
case. -/
def MIDIPlayerState.seek (s : MIDIPlayerState) (time : ℚ) (handles : List Nat) :
    MIDIPlayerState :=
  let wasPlaying := s.isPlaying
  let s1 := {s.stop with currentTime := time}
  if wasPlaying then s1.play time handles else s1

/-- `MIDIPlayer.setTempo(tempo)` (lines 421-434): capture the position,
stop if playing, set the scale, and resume from the captured position only
if the player was playing. -/
def MIDIPlayerState.setTempo (s : MIDIPlayerState) (tempo : ℚ) (handles : List Nat) :
    MIDIPlayerState :=
  let wasPlaying := s.isPlaying
  let currentTime := s.currentTime
  let s1 := if wasPlaying then s.stop else s
  let s2 := {s1 with tempo := tempo}
  if wasPlaying then s2.play currentTime handles else s2

/-- The three transport states of spec section 4.6. -/
inductive TransportPhase where
  | Stopped
  | Playing
  | Paused
deriving DecidableEq, Repr

/-- The transport state encoded by the two flags: `isPlaying` means
Playing, otherwise `isPaused` means Paused, otherwise Stopped. -/
def MIDIPlayerState.phase (s : MIDIPlayerState) : TransportPhase :=
  if s.isPlaying then .Playing else if s.isPaused then .Paused else .Stopped

/-- A call the player makes on the visualizer. -/
inductive VisCall where
  | addNote (note : Nat) (velocity : Nat)
  | removeNote (note : Nat)
deriving DecidableEq, Repr

/-- `MIDIPlayer.playNote(note, velocity, duration, channel)` (lines
191-246), as a state transformer returning the immediate visualizer calls.
With no audio context it returns at once; channel 9 resolves to program 128,
other channels to `channelPrograms[channel] || 0` (the identity on `Nat`);
a missing instrument triggers a (modelled, sequential) `loadInstrument`
await whose fetch result comes from `oracle`, then a missing result plus a
missing piano triggers a piano load; `visualizer.addNote` runs exactly when
the resolved `instrument || instruments[0]` is truthy and a player exists
(the deferred `removeNote` of line 243 fires `duration` later and is not
part of the immediate trace). -/
def playNote (oracle : Nat → FetchOutcome) (s : MIDIPlayerState)
    (note velocity : Nat) (duration : ℚ) (channel : Nat) :
    MIDIPlayerState × List VisCall :=
  if !s.hasAudioContext then (s, []) else
  let program := if channel = 9 then 128 else s.channelPrograms channel
  let s1 := if (s.instruments program).truthy then s
    else (loadInstrumentRun s program (oracle program)).1
  let instrument := s1.instruments program
  let s2 := if !instrument.truthy && !(s1.instruments 0).truthy then
      (loadInstrumentRun s1 0 (oracle 0)).1
    else s1
  let finalInstrument := if instrument.truthy then instrument else s2.instruments 0
  if finalInstrument.truthy && s2.hasPlayer then
    (s2, [.addNote note velocity])
  else (s2, [])

/-- The `setTimeout` callback registered by `scheduleNotes` (lines
177-181): at fire time the live `this.isPlaying` flag is checked, and the
fire is a no-op when it is false — the timer is gated, not retracted. -/
def noteFireCallback (oracle : Nat → FetchOutcome) (s : MIDIPlayerState)
    (note velocity : Nat) (duration : ℚ) (channel : Nat) :
    MIDIPlayerState × List VisCall :=
  if s.isPlaying then playNote oracle s note velocity duration channel else (s, [])

/-- The same resolver with the pending mapping keyed by pitch alone, the
channel being ignored when matching — the discipline `exportToJSON`
actually implements. -/
def resolveNotesByPitch (timeOf : Nat → ℚ) :
    List MIDIEvent → (Nat → Option PendingNote) → List SpecNote
  | [], _ => []
  | .noteOn t ch n v :: rest, pending =>
      resolveNotesByPitch timeOf rest
        (fun k => if k = n then some ⟨n, v, timeOf t, ch⟩ else pending k)
  | .noteOff t _ n :: rest, pending =>
      match pending n with
      | some p =>
          ⟨p.note, p.velocity, p.channel, p.startTime, timeOf t - p.startTime⟩ ::
            resolveNotesByPitch timeOf rest (fun k => if k = n then none else pending k)
      | none => resolveNotesByPitch timeOf rest pending
  | _ :: rest, pending => resolveNotesByPitch timeOf rest pending

/-! ## Theorems -/

/-- The `break`-at-the-first-change-with-`tick ≥ ticks` loop of
`ticksToSeconds` processes exactly the `takeWhile (tick < ticks)` prefix of
the change list. -/
theorem ticksToSecondsGo_eq_fold (ticks : Nat) (ticksPerBeat : ℚ) :
    ∀ (changes : List TempoChange) (sec : ℚ) (ct : Nat) (ctempo : ℚ),
    ticksToSecondsGo ticks ticksPerBeat changes sec ct ctempo =
      (let final : ℚ × Nat × ℚ := (changes.takeWhile (fun c => c.tick < ticks)).foldl
        (fun st c =>
          (st.1 + (((c.tick : ℚ) - (st.2.1 : ℚ)) / ticksPerBeat) * (st.2.2 / 1000000),
            c.tick, c.microsecondsPerBeat))
        (sec, ct, ctempo)
       final.1 + (((ticks : ℚ) - (final.2.1 : ℚ)) / ticksPerBeat) * (final.2.2 / 1000000)) := by
  intro changes
  induction changes with
  | nil => intro sec ct ctempo; simp [ticksToSecondsGo]
  | cons c rest ih =>
      intro sec ct ctempo
      by_cases h : ticks ≤ c.tick
      · have hnot : ¬ c.tick < ticks := not_lt.mpr h
        simp [ticksToSecondsGo, h, hnot, List.takeWhile_cons]
      · have hlt : c.tick < ticks := lt_of_not_le h
        simp only [ticksToSecondsGo, if_neg h, List.takeWhile_cons, hlt, decide_eq_true_eq,
          if_pos, List.foldl_cons]
        exact ih _ _ _

/-- Converting tick 0 never accumulates anything: the loop breaks at the
first change (every tick is `≥ 0`) and the remaining interval is empty. -/
theorem ticksToSeconds_zero (ticksPerBeat : ℚ) (tempoChanges : List TempoChange) :
    ticksToSeconds 0 ticksPerBeat tempoChanges = 0 := by
  cases tempoChanges <;> simp [ticksToSeconds, ticksToSecondsGo]

/-- C9: `ticksToSeconds` coincides with the reference definition of spec
section 4.1 (walk the changes with tick strictly below the target,
accumulating per-segment seconds, then add the remaining interval); in
particular it maps tick 0 to 0 for every positive `ticksPerBeat` and any
change list, and with `ticksPerBeat = 480` and a single tempo change of
500000 µs/beat it maps tick 480 to 0.5 seconds. -/
theorem c9_ticksToSeconds_matches_reference :
    (∀ (ticks : Nat) (ticksPerBeat : ℚ) (tempoChanges : List TempoChange),
      ticksToSeconds ticks ticksPerBeat tempoChanges =
        ticksToSecondsRef ticks ticksPerBeat tempoChanges) ∧
    (∀ (ticksPerBeat : ℚ) (tempoChanges : List TempoChange), 0 < ticksPerBeat →
      ticksToSeconds 0 ticksPerBeat tempoChanges = 0) ∧
    ticksToSeconds 480 480 [⟨0, 500000⟩] = 1/2 := by
  refine ⟨fun ticks ticksPerBeat tempoChanges => ?_,
    fun ticksPerBeat tempoChanges _ => ticksToSeconds_zero ticksPerBeat tempoChanges, ?_⟩
  · rw [ticksToSeconds, ticksToSecondsGo_eq_fold]
    rfl
  · norm_num [ticksToSeconds, ticksToSecondsGo]

/-- Witness for C9: the hypothesis `0 < ticksPerBeat` of the tick-0 part
holds at 480, and the conversion evaluates to 0 there. -/
theorem c9_ticksToSeconds_matches_reference_witness :
    (0 : ℚ) < 480 ∧ ticksToSeconds 0 480 [⟨0, 250000⟩, ⟨7, 100⟩] = 0 :=
  ⟨by norm_num,
    c9_ticksToSeconds_matches_reference.2.1 480 [⟨0, 250000⟩, ⟨7, 100⟩] (by norm_num)⟩

/-- On a change list sorted from the current tick, with positive tempos and
a current tick not past the target, the conversion loop never decreases the
accumulated seconds. -/
theorem ticksToSecondsGo_ge_seconds (ticks : Nat) (ticksPerBeat : ℚ) (htpb : 0 < ticksPerBeat) :
    ∀ (changes : List TempoChange) (sec : ℚ) (ct : Nat) (ctempo : ℚ),
    tempoTicksSortedFrom ct changes = true →
    (∀ c ∈ changes, 0 < c.microsecondsPerBeat) →
    0 < ctempo → ct ≤ ticks →
    sec ≤ ticksToSecondsGo ticks ticksPerBeat changes sec ct ctempo := by
  intro changes
  induction changes with
  | nil =>
      intro sec ct ctempo _ _ hctempo hct
      simp only [ticksToSecondsGo]
      have : (0 : ℚ) ≤ (((ticks : ℚ) - (ct : ℚ)) / ticksPerBeat) * (ctempo / 1000000) := by
        apply mul_nonneg
        · apply div_nonneg _ htpb.le
          have := Nat.cast_le (α := ℚ).mpr hct
          linarith
        · positivity
      linarith
  | cons c rest ih =>
      intro sec ct ctempo hsorted hpos hctempo hct
      simp only [tempoTicksSortedFrom, Bool.and_eq_true, decide_eq_true_eq] at hsorted
      obtain ⟨hctc, hrest⟩ := hsorted
      simp only [ticksToSecondsGo]
      by_cases h : ticks ≤ c.tick
      · rw [if_pos h]
        have : (0 : ℚ) ≤ (((ticks : ℚ) - (ct : ℚ)) / ticksPerBeat) * (ctempo / 1000000) := by
          apply mul_nonneg
          · apply div_nonneg _ htpb.le
            have := Nat.cast_le (α := ℚ).mpr hct
            linarith
          · positivity
        linarith
      · rw [if_neg h]
        have hlt : c.tick < ticks := lt_of_not_le h
        have hstep : sec ≤ sec + (((c.tick : ℚ) - (ct : ℚ)) / ticksPerBeat) * (ctempo / 1000000) := by
          have : (0 : ℚ) ≤ (((c.tick : ℚ) - (ct : ℚ)) / ticksPerBeat) * (ctempo / 1000000) := by
            apply mul_nonneg
            · apply div_nonneg _ htpb.le
              have := Nat.cast_le (α := ℚ).mpr hctc
              linarith
            · positivity
          linarith
        refine hstep.trans (ih _ _ _ hrest ?_ ?_ hlt.le)
        · exact fun d hd => hpos d (List.mem_cons_of_mem c hd)
        · exact hpos c (List.mem_cons_self c rest)

/-- One conversion segment is monotone in its right endpoint. -/
theorem tempoSegment_mono (ticksPerBeat : ℚ) (htpb : 0 < ticksPerBeat) (a b ct : ℚ)
    (hab : a ≤ b) (ctempo : ℚ) (hctempo : 0 ≤ ctempo) (sec : ℚ) :
    sec + ((a - ct) / ticksPerBeat) * (ctempo / 1000000) ≤
      sec + ((b - ct) / ticksPerBeat) * (ctempo / 1000000) := by
  have hk : (0 : ℚ) ≤ ctempo / 1000000 := by positivity
  have hdiv : (a - ct) / ticksPerBeat ≤ (b - ct) / ticksPerBeat :=
    (div_le_div_iff_of_pos_right htpb).mpr (by linarith)
  have := mul_le_mul_of_nonneg_right hdiv hk
  linarith

/-- Monotonicity of the conversion loop in the target tick, for a sorted
change list with positive tempos. -/
theorem ticksToSecondsGo_mono (ticksPerBeat : ℚ) (htpb : 0 < ticksPerBeat)
    (ticks1 ticks2 : Nat) (h12 : ticks1 ≤ ticks2) :
    ∀ (changes : List TempoChange) (sec : ℚ) (ct : Nat) (ctempo : ℚ),
    tempoTicksSortedFrom ct changes = true →
    (∀ c ∈ changes, 0 < c.microsecondsPerBeat) →
    0 < ctempo → ct ≤ ticks1 →
    ticksToSecondsGo ticks1 ticksPerBeat changes sec ct ctempo ≤
      ticksToSecondsGo ticks2 ticksPerBeat changes sec ct ctempo := by
  have hcast : ((ticks1 : ℚ)) ≤ (ticks2 : ℚ) := Nat.cast_le.mpr h12
  intro changes
  induction changes with
  | nil =>
      intro sec ct ctempo _ _ hctempo _
      simp only [ticksToSecondsGo]
      exact tempoSegment_mono ticksPerBeat htpb _ _ _ hcast ctempo hctempo.le sec
  | cons c rest ih =>
      intro sec ct ctempo hsorted hpos hctempo hct
      simp only [tempoTicksSortedFrom, Bool.and_eq_true, decide_eq_true_eq] at hsorted
      obtain ⟨hctc, hrest⟩ := hsorted
      simp only [ticksToSecondsGo]
      by_cases h1 : ticks1 ≤ c.tick
      · rw [if_pos h1]
        by_cases h2 : ticks2 ≤ c.tick
        · rw [if_pos h2]
          exact tempoSegment_mono ticksPerBeat htpb _ _ _ hcast ctempo hctempo.le sec
        · rw [if_neg h2]
          have hlt2 : c.tick < ticks2 := lt_of_not_le h2
          have hhead : sec + (((ticks1 : ℚ) - (ct : ℚ)) / ticksPerBeat) * (ctempo / 1000000) ≤
              sec + (((c.tick : ℚ) - (ct : ℚ)) / ticksPerBeat) * (ctempo / 1000000) :=
            tempoSegment_mono ticksPerBeat htpb _ _ _ (Nat.cast_le.mpr h1) ctempo hctempo.le sec
          refine hhead.trans ?_
          refine ticksToSecondsGo_ge_seconds ticks2 ticksPerBeat htpb rest _ c.tick
            c.microsecondsPerBeat hrest ?_ ?_ hlt2.le
          · exact fun d hd => hpos d (List.mem_cons_of_mem c hd)
          · exact hpos c (List.mem_cons_self c rest)
      · have hlt1 : c.tick < ticks1 := lt_of_not_le h1
        have h2 : ¬ ticks2 ≤ c.tick := not_le.mpr (lt_of_lt_of_le hlt1 h12)
        rw [if_neg h1, if_neg h2]
        refine ih _ _ _ hrest ?_ ?_ hlt1.le
        · exact fun d hd => hpos d (List.mem_cons_of_mem c hd)
        · exact hpos c (List.mem_cons_self c rest)

/-- C8: for a change list sorted ascending by tick with positive
`microsecondsPerBeat`, and a positive `ticksPerBeat`, `ticksToSeconds` is
monotonic non-decreasing in its tick argument, and deterministic: equal
tick arguments give equal results. -/
theorem c8_ticksToSeconds_monotone (tempoChanges : List TempoChange) (ticksPerBeat : ℚ)
    (ticks1 ticks2 : Nat)
    (hsorted : tempoTicksSortedFrom 0 tempoChanges = true)
    (hpos : ∀ c ∈ tempoChanges, 0 < c.microsecondsPerBeat)
    (htpb : 0 < ticksPerBeat) :
    (ticks1 ≤ ticks2 →
      ticksToSeconds ticks1 ticksPerBeat tempoChanges ≤
        ticksToSeconds ticks2 ticksPerBeat tempoChanges) ∧
    (ticks1 = ticks2 →
      ticksToSeconds ticks1 ticksPerBeat tempoChanges =
        ticksToSeconds ticks2 ticksPerBeat tempoChanges) := by
  constructor
  · intro h12
    exact ticksToSecondsGo_mono ticksPerBeat htpb ticks1 ticks2 h12 tempoChanges 0 0 500000
      hsorted hpos (by norm_num) (Nat.zero_le _)
  · intro h; rw [h]

/-- Witness for C8: a concrete sorted change list with positive tempos, a
positive `ticksPerBeat`, and the monotonicity conclusion at ticks 100 and
200. -/
theorem c8_ticksToSeconds_monotone_witness :
    tempoTicksSortedFrom 0 [⟨0, 500000⟩, ⟨120, 250000⟩] = true ∧
    (∀ c ∈ [(⟨0, 500000⟩ : TempoChange), ⟨120, 250000⟩], 0 < c.microsecondsPerBeat) ∧
    (0 : ℚ) < 480 ∧ (100 : Nat) ≤ 200 ∧
    ticksToSeconds 100 480 [⟨0, 500000⟩, ⟨120, 250000⟩] ≤
      ticksToSeconds 200 480 [⟨0, 500000⟩, ⟨120, 250000⟩] :=
  ⟨by decide, by norm_num, by norm_num, by norm_num,
    (c8_ticksToSeconds_monotone [⟨0, 500000⟩, ⟨120, 250000⟩] 480 100 200 (by decide)
      (by norm_num) (by norm_num)).1 (by norm_num)⟩

/-- C1 counterexample: start from a fresh player (no piano loaded), let the
load of key 24 fail — the cache entry becomes `null` (`Failed`) — and call
`loadInstrument(24)` again.  The cache-hit test `if (this.instruments[24])`
treats `null` as absent, so the second call issues another resource fetch
(count 1, not 0): `Failed` is not terminal. -/
theorem c1_counterexample :
    (loadInstrumentRun initialPlayerState 24 .error).1.instruments 24 = JSVal.nullv ∧
    (loadInstrumentRun (loadInstrumentRun initialPlayerState 24 .error).1 24 .error).2 = 1 := by
  constructor <;> rfl

/-- C1 (amended): when a load attempt fails and no key-0 fallback handle is
available, the cache entry becomes `null` (`Failed`); but this entry is
**not** terminal — because the cache-hit test checks truthiness, a later
`loadInstrument` call for the same key (with no load in flight) proceeds to
issue another resource fetch. -/
theorem c1_failed_load_not_terminal :
    (∀ (s : MIDIPlayerState) (program : Nat),
      ¬(program ≠ 0 ∧ (s.instruments 0).truthy = true) →
      (loadInstrumentFinish s program .error).instruments program = JSVal.nullv) ∧
    (∀ (s : MIDIPlayerState) (program : Nat),
      s.instruments program = JSVal.nullv →
      (s.loadingFonts program && s.loadingPromises program) = false →
      (loadInstrumentStep1 s program).2.2 = 1 ∧
        (loadInstrumentStep1 s program).2.1 = LoadCont.awaitFetch) := by
  constructor
  · intro s program h
    have h' : ¬(program ≠ 0 ∧ (s.instruments 0).truthy) := by
      simpa using h
    simp [loadInstrumentFinish, doLoadInstrumentResult, h']
  · intro s program hnull hflight
    have htr : (s.instruments program).truthy = false := by
      rw [hnull]; rfl
    simp [loadInstrumentStep1, htr, hflight]

/-- Witness for C1 (amended): the fresh player at key 24. -/
theorem c1_failed_load_not_terminal_witness :
    (¬((24 : Nat) ≠ 0 ∧ (initialPlayerState.instruments 0).truthy = true) ∧
      (loadInstrumentFinish initialPlayerState 24 .error).instruments 24 = JSVal.nullv) ∧
    ((loadInstrumentRun initialPlayerState 24 .error).1.instruments 24 = JSVal.nullv ∧
      ((loadInstrumentRun initialPlayerState 24 .error).1.loadingFonts 24 &&
        (loadInstrumentRun initialPlayerState 24 .error).1.loadingPromises 24) = false ∧
      (loadInstrumentStep1 (loadInstrumentRun initialPlayerState 24 .error).1 24).2.2 = 1) :=
  ⟨⟨by decide, c1_failed_load_not_terminal.1 initialPlayerState 24 (by decide)⟩,
    ⟨by decide, by decide,
      (c1_failed_load_not_terminal.2 (loadInstrumentRun initialPlayerState 24 .error).1 24
        (by decide) (by decide)).1⟩⟩

/-- C4: per key at most one load is in flight.  First conjunct: two
concurrent `loadInstrument` calls for the same not-yet-loaded,
not-yet-loading key — the first issues the single fetch and suspends, the
second observes `loadingFonts`/`loadingPromises` and awaits the shared
promise without fetching, so exactly one resource fetch is issued in
total.  Second conjunct: any call arriving while a load of that key is in
flight issues no fetch and awaits the shared operation. -/
theorem c4_concurrent_loads_single_fetch :
    (∀ (s : MIDIPlayerState) (program : Nat),
      (s.instruments program).truthy = false →
      s.loadingFonts program = false →
      s.loadingPromises program = false →
      (twoConcurrentLoads s program).2.2.2 = 1 ∧
        (twoConcurrentLoads s program).2.1 = LoadCont.awaitFetch ∧
        (twoConcurrentLoads s program).2.2.1 = LoadCont.awaitShared) ∧
    (∀ (s : MIDIPlayerState) (program : Nat),
      (s.instruments program).truthy = false →
      s.loadingFonts program = true →
      s.loadingPromises program = true →
      (loadInstrumentStep1 s program).2.2 = 0 ∧
        (loadInstrumentStep1 s program).2.1 = LoadCont.awaitShared) := by
  constructor
  · intro s program htr hlf hlp
    have hfl : (s.loadingFonts program && s.loadingPromises program) = false := by
      rw [hlf]; rfl
    simp [twoConcurrentLoads, loadInstrumentStep1, htr, hfl]
  · intro s program htr hlf hlp
    simp [loadInstrumentStep1, htr, hlf, hlp]

/-- Witness for C4: two concurrent `loadInstrument(24)` calls on a fresh
player issue exactly one fetch, and a call during an in-flight load of 24
issues none. -/
theorem c4_concurrent_loads_single_fetch_witness :
    ((initialPlayerState.instruments 24).truthy = false ∧
      initialPlayerState.loadingFonts 24 = false ∧
      initialPlayerState.loadingPromises 24 = false ∧
      (twoConcurrentLoads initialPlayerState 24).2.2.2 = 1) ∧
    (((loadInstrumentStep1 initialPlayerState 24).1.instruments 24).truthy = false ∧
      (loadInstrumentStep1 initialPlayerState 24).1.loadingFonts 24 = true ∧
      (loadInstrumentStep1 initialPlayerState 24).1.loadingPromises 24 = true ∧
      (loadInstrumentStep1 (loadInstrumentStep1 initialPlayerState 24).1 24).2.2 = 0) :=
  ⟨⟨by decide, by decide, by decide,
      (c4_concurrent_loads_single_fetch.1 initialPlayerState 24 (by decide) (by decide)
        (by decide)).1⟩,
    ⟨by decide, by decide, by decide,
      (c4_concurrent_loads_single_fetch.2 (loadInstrumentStep1 initialPlayerState 24).1 24
        (by decide) (by decide) (by decide)).1⟩⟩

/-- C3 counterexample: a Paused session (paused at position 3) does not
remain Paused across `seek(5)` — `seek` runs `stop()`, which clears the
paused flag, and re-enters Playing only when the prior state was Playing,
so the session ends up Stopped. -/
theorem c3_counterexample :
    ({initialPlayerState with isPaused := true, currentTime := 3} : MIDIPlayerState).phase
        = TransportPhase.Paused ∧
    (({initialPlayerState with isPaused := true, currentTime := 3} : MIDIPlayerState).seek 5 []).phase
        = TransportPhase.Stopped ∧
    TransportPhase.Stopped ≠ TransportPhase.Paused := by
  refine ⟨rfl, rfl, by decide⟩

/-- C3 (amended): `seek(t)` re-anchors the position at `t` in every case,
re-enters Playing exactly when the prior state was Playing, and preserves
Stopped; but a Paused session does not remain Paused — it transitions to
Stopped. -/
theorem c3_seek_reanchors (s : MIDIPlayerState) (t : ℚ) (handles : List Nat) :
    ((s.phase = TransportPhase.Playing → (s.seek t handles).phase = TransportPhase.Playing) ∧
     (s.phase = TransportPhase.Stopped → (s.seek t handles).phase = TransportPhase.Stopped) ∧
     (s.phase = TransportPhase.Paused → (s.seek t handles).phase = TransportPhase.Stopped)) ∧
    (s.seek t handles).currentTime = t := by
  cases hp : s.isPlaying <;>
    cases hq : s.isPaused <;>
      simp [MIDIPlayerState.seek, MIDIPlayerState.stop, MIDIPlayerState.play,
        MIDIPlayerState.phase, hp, hq]

/-- Witness for C3 (amended): a Playing session sought to 5 is Playing
again, re-anchored at 5. -/
theorem c3_seek_reanchors_witness :
    ({initialPlayerState with isPlaying := true} : MIDIPlayerState).phase
        = TransportPhase.Playing ∧
    (({initialPlayerState with isPlaying := true} : MIDIPlayerState).seek 5 []).phase
        = TransportPhase.Playing ∧
    (({initialPlayerState with isPlaying := true} : MIDIPlayerState).seek 5 []).currentTime = 5 :=
  ⟨by decide,
    (c3_seek_reanchors {initialPlayerState with isPlaying := true} 5 []).1.1 (by decide),
    (c3_seek_reanchors {initialPlayerState with isPlaying := true} 5 []).2⟩

/-- C6: after `stop()` the pending timer handles are cleared, and any
note-fire callback that still executes (a timer already due when the
cancellation ran) observes `isPlaying = false` and suppresses itself: it
produces no visualizer call at all — in particular no `addNote`. -/
theorem c6_stop_gates_note_fires (oracle : Nat → FetchOutcome) (s : MIDIPlayerState)
    (note velocity : Nat) (duration : ℚ) (channel : Nat) :
    (noteFireCallback oracle s.stop note velocity duration channel).2 = [] ∧
    s.stop.scheduledEvents = [] ∧
    s.stop.isPlaying = false := by
  refine ⟨?_, rfl, rfl⟩
  simp [noteFireCallback, MIDIPlayerState.stop]

/-- With a start offset of 0 and non-negative event times, the live
scheduling walk implements exactly the `(pitch, channel)`-keyed resolver of
spec section 4.2: same overwrite-on-noteOn, emit-on-matched-noteOff, and
drop-at-end behaviour, with the delay `(startSeconds − 0) × 1000`. -/
theorem schedGo_eq_resolveNotesSpec (timeOf : Nat → ℚ) (h : ∀ t, 0 ≤ timeOf t) :
    ∀ (events : List MIDIEvent) (pending : Nat × Nat → Option PendingNote),
    schedGo timeOf 0 events pending =
      (resolveNotesSpec timeOf events pending).map
        (fun n => ⟨n.pitch, n.velocity, n.startSeconds, n.durationSeconds, n.channel,
          n.startSeconds * 1000⟩) := by
  intro events
  induction events with
  | nil => intro pending; simp [schedGo, resolveNotesSpec]
  | cons e rest ih =>
      intro pending
      cases e with
      | noteOn t ch n v =>
          have h0 : ¬ timeOf t < 0 := not_lt.mpr (h t)
          simp only [schedGo, resolveNotesSpec, h0, if_neg, if_false]
          exact ih _
      | noteOff t ch n =>
          have h0 : ¬ timeOf t < 0 := not_lt.mpr (h t)
          rcases hp : pending (n, ch) with _ | p
          · simp only [schedGo, resolveNotesSpec, h0, if_neg, if_false, hp]
            exact ih _
          · simp only [schedGo, resolveNotesSpec, h0, if_neg, if_false, hp, List.map_cons]
            rw [ih]
            simp [sub_zero]
      | tempo t micro => simpa only [schedGo, resolveNotesSpec] using ih pending
      | programChange t ch prog => simpa only [schedGo, resolveNotesSpec] using ih pending
      | other t => simpa only [schedGo, resolveNotesSpec] using ih pending

/-- The structured-export walk implements exactly the pitch-only resolver:
its pending map is the channel-forgetting projection of the resolver's, and
its output forgets the channel of each emitted Note. -/
theorem exportGo_eq_resolveNotesByPitch (timeOf : Nat → ℚ) :
    ∀ (events : List MIDIEvent) (pending : Nat → Option PendingNote),
    exportGo timeOf events (fun k => (pending k).map (fun p => ⟨p.note, p.velocity, p.startTime⟩)) =
      (resolveNotesByPitch timeOf events pending).map
        (fun n => ⟨n.pitch, n.startSeconds, n.durationSeconds, n.velocity⟩) := by
  intro events
  induction events with
  | nil => intro pending; simp [exportGo, resolveNotesByPitch]
  | cons e rest ih =>
      intro pending
      cases e with
      | noteOn t ch n v =>
          simp only [exportGo, resolveNotesByPitch]
          have harg :
              (fun k => if k = n then some (⟨n, v, timeOf t⟩ : ExportPending)
                else (pending k).map (fun p => ⟨p.note, p.velocity, p.startTime⟩)) =
              (fun k =>
                ((fun k' => if k' = n then some (⟨n, v, timeOf t, ch⟩ : PendingNote)
                  else pending k') k).map (fun p => ⟨p.note, p.velocity, p.startTime⟩)) := by
            funext k
            by_cases hk : k = n <;> simp [hk]
          rw [harg]
          exact ih _
      | noteOff t ch n =>
          rcases hp : pending n with _ | p
          · simp only [exportGo, resolveNotesByPitch, hp, Option.map_none]
            exact ih _
          · simp only [exportGo, resolveNotesByPitch, hp, Option.map_some, Option.map_some',
              List.map_cons]
            have harg :
                (fun k => if k = n then none
                  else (pending k).map (fun p => ⟨p.note, p.velocity, p.startTime⟩)) =
                (fun k =>
                  ((fun k' => if k' = n then none else pending k') k).map
                    (fun p => (⟨p.note, p.velocity, p.startTime⟩ : ExportPending))) := by
              funext k
              by_cases hk : k = n <;> simp [hk]
            rw [harg, ih]
      | tempo t micro => simpa only [exportGo, resolveNotesByPitch] using ih pending
      | programChange t ch prog => simpa only [exportGo, resolveNotesByPitch] using ih pending
      | other t => simpa only [exportGo, resolveNotesByPitch] using ih pending

/-- C2 counterexample: in the track `[noteOn(pitch 60, channel 0),
noteOff(pitch 60, channel 1)]` no noteOff ever finds a pending noteOn under
the same `(pitch, channel)` key — the `(pitch, channel)`-keyed resolver
emits nothing — yet structured export emits a Note: `exportToJSON` keys its
pending map by pitch alone, so the channel-1 noteOff closes the channel-0
noteOn. -/
theorem c2_counterexample :
    exportToJSON [[.noteOn 0 0 60 64, .noteOff 480 1 60]] 480 100 = [[⟨60, 0, 1/2, 64⟩]] ∧
    resolveNotesSpec
      (fun t => ticksToSeconds t 480 (collectTempoChanges [[.noteOn 0 0 60 64, .noteOff 480 1 60]]))
      [.noteOn 0 0 60 64, .noteOff 480 1 60] (fun _ => none) = [] := by
  constructor
  · norm_num [exportToJSON, exportGo, collectTempoChanges, sortTempoChanges,
      ticksToSeconds, ticksToSecondsGo]
  · norm_num [resolveNotesSpec]

/-- C2 (amended): with the respective keys the claim holds — a Note is
emitted exactly when a noteOff finds a pending noteOn, a later noteOn for
the same key silently overwrites the pending entry, and an entry still
pending at the end never yields a Note — but the key is `(pitch, channel)`
only in live scheduling; structured export keys its pending map by pitch
alone, ignoring the channel when matching (and omitting it from the
output).  Both walks coincide with the corresponding reference resolver. -/
theorem c2_pairing_disciplines (timeOf : Nat → ℚ) (events : List MIDIEvent)
    (h : ∀ t, 0 ≤ timeOf t) :
    schedGo timeOf 0 events (fun _ => none) =
      (resolveNotesSpec timeOf events (fun _ => none)).map
        (fun n => ⟨n.pitch, n.velocity, n.startSeconds, n.durationSeconds, n.channel,
          n.startSeconds * 1000⟩) ∧
    exportGo timeOf events (fun _ => none) =
      (resolveNotesByPitch timeOf events (fun _ => none)).map
        (fun n => ⟨n.pitch, n.startSeconds, n.durationSeconds, n.velocity⟩) := by
  constructor
  · exact schedGo_eq_resolveNotesSpec timeOf h events _
  · have := exportGo_eq_resolveNotesByPitch timeOf events (fun _ => none)
    simpa using this

/-- Witness for C2 (amended): the non-negativity hypothesis and both
equalities, instantiated at the natural-cast time map and a two-event
track. -/
theorem c2_pairing_disciplines_witness :
    (∀ t : Nat, (0 : ℚ) ≤ (t : ℚ)) ∧
    (schedGo (fun t => (t : ℚ)) 0 [.noteOn 0 0 60 64, .noteOff 2 0 60] (fun _ => none) =
      (resolveNotesSpec (fun t => (t : ℚ)) [.noteOn 0 0 60 64, .noteOff 2 0 60]
        (fun _ => none)).map
        (fun n => ⟨n.pitch, n.velocity, n.startSeconds, n.durationSeconds, n.channel,
          n.startSeconds * 1000⟩)) ∧
    (exportGo (fun t => (t : ℚ)) [.noteOn 0 0 60 64, .noteOff 2 0 60] (fun _ => none) =
      (resolveNotesByPitch (fun t => (t : ℚ)) [.noteOn 0 0 60 64, .noteOff 2 0 60]
        (fun _ => none)).map
        (fun n => ⟨n.pitch, n.startSeconds, n.durationSeconds, n.velocity⟩)) :=
  ⟨fun t => Nat.cast_nonneg t,
    (c2_pairing_disciplines (fun t => (t : ℚ)) [.noteOn 0 0 60 64, .noteOff 2 0 60]
      (fun t => Nat.cast_nonneg t)).1,
    (c2_pairing_disciplines (fun t => (t : ℚ)) [.noteOn 0 0 60 64, .noteOff 2 0 60]
      (fun t => Nat.cast_nonneg t)).2⟩

/-- Scaling every event time by a constant factor scales the start time and
duration of every note the WAV walk queues by that factor: the pairing and
instrument-gating decisions never inspect times. -/
theorem wavGo_scale (instruments : Nat → JSVal) (hasPlayer : Bool)
    (channelPrograms : Nat → Nat) (f : Nat → ℚ) (c : ℚ) :
    ∀ (events : List MIDIEvent) (pending : Nat × Nat → Option PendingNote),
    wavGo instruments hasPlayer channelPrograms (fun t => f t * c) events
        (fun k => (pending k).map (fun p => {p with startTime := p.startTime * c})) =
      (wavGo instruments hasPlayer channelPrograms f events pending).map
        (fun w => {w with startTime := w.startTime * c, duration := w.duration * c}) := by
  intro events
  induction events with
  | nil => intro pending; simp [wavGo]
  | cons e rest ih =>
      intro pending
      cases e with
      | noteOn t ch n v =>
          simp only [wavGo]
          have harg :
              (fun k => if k = (n, ch) then some (⟨n, v, f t * c, ch⟩ : PendingNote)
                else (pending k).map (fun p => {p with startTime := p.startTime * c})) =
              (fun k =>
                ((fun k' => if k' = (n, ch) then some (⟨n, v, f t, ch⟩ : PendingNote)
                  else pending k') k).map (fun p => {p with startTime := p.startTime * c})) := by
            funext k
            by_cases hk : k = (n, ch) <;> simp [hk]
          rw [harg]
          exact ih _
      | noteOff t ch n =>
          rcases hp : pending (n, ch) with _ | p
          · simp only [wavGo, hp, Option.map_none']
            exact ih _
          · simp only [wavGo, hp, Option.map_some']
            have harg :
                (fun k => if k = (n, ch) then none
                  else (pending k).map (fun p => {p with startTime := p.startTime * c})) =
                (fun k =>
                  ((fun k' => if k' = (n, ch) then none else pending k') k).map
                    (fun p => {p with startTime := p.startTime * c})) := by
              funext k
              by_cases hk : k = (n, ch) <;> simp [hk]
            rw [harg, ih]
            by_cases hg :
                ((if (instruments (if p.channel = 9 then 128 else channelPrograms p.channel)).truthy
                  then instruments (if p.channel = 9 then 128 else channelPrograms p.channel)
                  else instruments 0).truthy && hasPlayer) = true
            · simp only [hg, if_true, List.map_cons]
              congr 1
              simp [sub_mul]
            · simp only [Bool.not_eq_true] at hg
              simp [hg]
      | tempo t micro => simpa only [wavGo] using ih pending
      | programChange t ch prog => simpa only [wavGo] using ih pending
      | other t => simpa only [wavGo] using ih pending

/-- C5: structured (JSON) export times are the unscaled tempo-map seconds —
the method never reads the tempo scale, so its output is the same for every
`tempoScalePercent` — while the start times of the notes the audio (WAV)
export queues are the tempo-map seconds divided by `tempoScalePercent/100`:
they scale inversely with the tempo scale. -/
theorem c5_export_tempo_asymmetry (tracks : List (List MIDIEvent)) (ticksPerBeat tempo : ℚ)
    (instruments : Nat → JSVal) (hasPlayer : Bool) (channelPrograms : Nat → Nat)
    (htempo : 0 < tempo) :
    (∀ tempo2 : ℚ,
      exportToJSON tracks ticksPerBeat tempo = exportToJSON tracks ticksPerBeat tempo2) ∧
    (exportToWAVNotes tracks ticksPerBeat tempo instruments hasPlayer channelPrograms).map
        WavNote.startTime =
      ((exportToWAVNotesUnscaled tracks ticksPerBeat instruments hasPlayer channelPrograms).map
        WavNote.startTime).map (fun x => x / (tempo / 100)) := by
  constructor
  · intro _; rfl
  · have hdiv : ∀ x : ℚ, x / (tempo / 100) = x * (100 / tempo) := fun x => by
      rw [div_div_eq_mul_div, mul_div_assoc]
    simp only [exportToWAVNotes, exportToWAVNotesUnscaled]
    rw [List.map_flatten, List.map_flatten, List.map_flatten]
    simp only [List.map_map]
    refine congrArg List.flatten (List.map_congr_left ?_)
    intro track _
    have hsf : (fun t => ticksToSeconds t ticksPerBeat (collectTempoChanges tracks) / (tempo / 100))
        = (fun t => ticksToSeconds t ticksPerBeat (collectTempoChanges tracks) * (100 / tempo)) :=
      funext fun t => hdiv _
    have hscale :
        wavGo instruments hasPlayer channelPrograms
          (fun t => ticksToSeconds t ticksPerBeat (collectTempoChanges tracks) * (100 / tempo))
          track (fun _ => none) =
        (wavGo instruments hasPlayer channelPrograms
          (fun t => ticksToSeconds t ticksPerBeat (collectTempoChanges tracks))
          track (fun _ => none)).map
          (fun w => {w with startTime := w.startTime * (100 / tempo), duration := w.duration * (100 / tempo)}) := by
      have := wavGo_scale instruments hasPlayer channelPrograms
        (fun t => ticksToSeconds t ticksPerBeat (collectTempoChanges tracks)) (100 / tempo)
        track (fun _ => none)
      simpa using this
    simp only [Function.comp_def, hsf, hscale, List.map_map]
    refine List.map_congr_left ?_
    intro w _
    simp [hdiv]

/-- Witness for C5: a concrete document at tempo scale 200. -/
theorem c5_export_tempo_asymmetry_witness :
    (0 : ℚ) < 200 ∧
    exportToJSON [[.noteOn 0 0 60 64, .noteOff 480 0 60]] 480 200 =
      exportToJSON [[.noteOn 0 0 60 64, .noteOff 480 0 60]] 480 100 ∧
    (exportToWAVNotes [[.noteOn 0 0 60 64, .noteOff 480 0 60]] 480 200
        (fun _ => JSVal.font 0) true (fun _ => 0)).map WavNote.startTime =
      ((exportToWAVNotesUnscaled [[.noteOn 0 0 60 64, .noteOff 480 0 60]] 480
        (fun _ => JSVal.font 0) true (fun _ => 0)).map WavNote.startTime).map
        (fun x => x / (200 / 100)) :=
  ⟨by norm_num,
    (c5_export_tempo_asymmetry [[.noteOn 0 0 60 64, .noteOff 480 0 60]] 480 200
      (fun _ => JSVal.font 0) true (fun _ => 0) (by norm_num)).1 100,
    (c5_export_tempo_asymmetry [[.noteOn 0 0 60 64, .noteOff 480 0 60]] 480 200
      (fun _ => JSVal.font 0) true (fun _ => 0) (by norm_num)).2⟩

/-- Scaling every event time and the start offset by the same positive
factor leaves the skip and pairing decisions of the scheduling walk
unchanged and scales every start time, duration and firing delay by that
factor. -/
theorem schedGo_scale (f : Nat → ℚ) (startTime c : ℚ) (hc : 0 < c) :
    ∀ (events : List MIDIEvent) (pending : Nat × Nat → Option PendingNote),
    schedGo (fun t => f t * c) (startTime * c) events
        (fun k => (pending k).map (fun p => {p with startTime := p.startTime * c})) =
      (schedGo f startTime events pending).map
        (fun n => {n with startTime := n.startTime * c, duration := n.duration * c, delay := n.delay * c}) := by
  intro events
  induction events with
  | nil => intro pending; simp [schedGo]
  | cons e rest ih =>
      intro pending
      cases e with
      | noteOn t ch n v =>
          by_cases hskip : f t < startTime
          · have hskip' : f t * c < startTime * c := (mul_lt_mul_right hc).mpr hskip
            simp only [schedGo, if_pos hskip, if_pos hskip']
            exact ih _
          · have hskip' : ¬ f t * c < startTime * c := fun h =>
              hskip ((mul_lt_mul_right hc).mp h)
            simp only [schedGo, if_neg hskip, if_neg hskip']
            have harg :
                (fun k => if k = (n, ch) then some (⟨n, v, f t * c, ch⟩ : PendingNote)
                  else (pending k).map (fun p => {p with startTime := p.startTime * c})) =
                (fun k =>
                  ((fun k' => if k' = (n, ch) then some (⟨n, v, f t, ch⟩ : PendingNote)
                    else pending k') k).map (fun p => {p with startTime := p.startTime * c})) := by
              funext k
              by_cases hk : k = (n, ch) <;> simp [hk]
            rw [harg]
            exact ih _
      | noteOff t ch n =>
          by_cases hskip : f t < startTime
          · have hskip' : f t * c < startTime * c := (mul_lt_mul_right hc).mpr hskip
            simp only [schedGo, if_pos hskip, if_pos hskip']
            exact ih _
          · have hskip' : ¬ f t * c < startTime * c := fun h =>
              hskip ((mul_lt_mul_right hc).mp h)
            rcases hp : pending (n, ch) with _ | p
            · simp only [schedGo, if_neg hskip, if_neg hskip', hp, Option.map_none']
              exact ih _
            · simp only [schedGo, if_neg hskip, if_neg hskip', hp, Option.map_some',
                List.map_cons]
              have harg :
                  (fun k => if k = (n, ch) then none
                    else (pending k).map (fun p => {p with startTime := p.startTime * c})) =
                  (fun k =>
                    ((fun k' => if k' = (n, ch) then none else pending k') k).map
                      (fun p => {p with startTime := p.startTime * c})) := by
                funext k
                by_cases hk : k = (n, ch) <;> simp [hk]
              rw [harg, ih]
              congr 1
              simp only [ScheduledNote.mk.injEq, true_and, and_true]
              exact ⟨by ring, by ring⟩
      | tempo t micro => simpa only [schedGo] using ih pending
      | programChange t ch prog => simpa only [schedGo] using ih pending
      | other t => simpa only [schedGo] using ih pending

/-- C7 counterexample: with a nonzero start offset the tempo-200 delays are
not half the tempo-100 delays.  Track `[noteOn tick 8, noteOff tick 10]`,
`ticksPerBeat = 1` (so the noteOn sits at 4 s), start offset 1 s: at tempo
100 the delay is `(4 − 1)·1000 = 3000` ms, at tempo 200 it is
`(2 − 1)·1000 = 1000` ms — not `3000 / 2`. -/
theorem c7_counterexample :
    (scheduleNotesList [[.noteOn 8 0 60 64, .noteOff 10 0 60]] 1 200 1).map
        ScheduledNote.delay = [1000] ∧
    (scheduleNotesList [[.noteOn 8 0 60 64, .noteOff 10 0 60]] 1 100 1).map
        ScheduledNote.delay = [3000] ∧
    ¬((1000 : ℚ) = 3000 / 2) := by
  refine ⟨?_, ?_, by norm_num⟩ <;>
    norm_num [scheduleNotesList, schedGo, collectTempoChanges, sortTempoChanges,
      ticksToSeconds, ticksToSecondsGo]

/-- C7 (amended): with start offset 0 — the offset `setTempo`-triggered
rescheduling uses only when the captured position is 0 — scheduling at
tempo scale 200 assigns every note exactly half the firing delay it gets at
tempo scale 100; for the same note set and a nonzero offset the delays are
related by `delay200 = (delay100 − offset·1000) / 2` instead, not by
halving. -/
theorem c7_tempo200_halves_delays_at_offset_zero (tracks : List (List MIDIEvent))
    (ticksPerBeat : ℚ) :
    (scheduleNotesList tracks ticksPerBeat 200 0).map ScheduledNote.delay =
      ((scheduleNotesList tracks ticksPerBeat 100 0).map ScheduledNote.delay).map
        (fun d => d / 2) := by
  simp only [scheduleNotesList]
  have hsf : (fun t => ticksToSeconds t ticksPerBeat (collectTempoChanges tracks) / (200 / 100))
      = (fun t => (ticksToSeconds t ticksPerBeat (collectTempoChanges tracks) / (100 / 100)) * (1 / 2)) :=
    funext fun t => by ring
  rw [hsf]
  have hsc := schedGo_scale
    (fun t => ticksToSeconds t ticksPerBeat (collectTempoChanges tracks) / (100 / 100))
    0 (1 / 2) (by norm_num) tracks.flatten (fun _ => none)
  rw [zero_mul] at hsc
  simp only [Option.map_none'] at hsc
  rw [hsc, List.map_map, List.map_map]
  refine List.map_congr_left ?_
  intro n _
  simp only [Function.comp_apply]
  ring

/-- C10 counterexample: `ticksPerBeat = 44100`, one track
`[noteOn tick 9, noteOff tick 11]`, tempo scale 80 (< 100).  The unscaled
duration is `11/88200` s, so the buffer holds `⌈44100 · 11/88200⌉ = 6`
frames; the note's scaled start `1/7840` s exceeds the unscaled duration,
yet `44100 · 1/7840 = 5.625 < 6`: the note is scheduled strictly inside
the rendered buffer, not at or beyond its end. -/
theorem c10_counterexample :
    exportToWAVNotes [[.noteOn 9 0 60 64, .noteOff 11 0 60]] 44100 80
        (fun _ => JSVal.font 0) true (fun _ => 0) = [⟨1/7840, 60, 1/35280, 64/127⟩] ∧
    calculateDuration [[.noteOn 9 0 60 64, .noteOff 11 0 60]] 44100 = 11/88200 ∧
    (11/88200 : ℚ) < 1/7840 ∧
    wavBufferFrames [[.noteOn 9 0 60 64, .noteOff 11 0 60]] 44100 = 6 ∧
    44100 * (1/7840 : ℚ) < ((6 : ℤ) : ℚ) := by
  have hdur : calculateDuration [[.noteOn 9 0 60 64, .noteOff 11 0 60]] 44100 = 11/88200 := by
    norm_num [calculateDuration, collectTempoChanges, sortTempoChanges, MIDIEvent.time,
      ticksToSeconds, ticksToSecondsGo]
  refine ⟨?_, hdur, by norm_num, ?_, by norm_num⟩
  · norm_num [exportToWAVNotes, wavGo, collectTempoChanges, sortTempoChanges,
      ticksToSeconds, ticksToSecondsGo, JSVal.truthy]
  · rw [wavBufferFrames, hdur, Int.ceil_eq_iff]
    norm_num

/-- C10 (amended): the offline render buffer of the audio export is sized
from the unscaled duration (`⌈44100 · duration⌉` frames) while the queued
start times are divided by `tempoScalePercent/100`; consequently, for every
tempo scale below 100, any queued note whose scaled start time exceeds the
unscaled duration by at least one sample period (`1/44100` s) is scheduled
at or beyond the end of the rendered buffer.  (A note whose scaled start
exceeds the duration by less than one sample period can still fall inside
the buffer, because of the `ceil` slack — see the counterexample.) -/
theorem c10_wav_buffer_overrun (tracks : List (List MIDIEvent)) (ticksPerBeat tempo : ℚ)
    (instruments : Nat → JSVal) (hasPlayer : Bool) (channelPrograms : Nat → Nat)
    (w : WavNote) (h0 : 0 < tempo) (h100 : tempo < 100)
    (hmem : w ∈ exportToWAVNotes tracks ticksPerBeat tempo instruments hasPlayer channelPrograms)
    (hbeyond : calculateDuration tracks ticksPerBeat + 1 / 44100 ≤ w.startTime) :
    ((wavBufferFrames tracks ticksPerBeat : ℤ) : ℚ) ≤ 44100 * w.startTime := by
  have hceil : ((wavBufferFrames tracks ticksPerBeat : ℤ) : ℚ) <
      44100 * calculateDuration tracks ticksPerBeat + 1 := by
    simpa [wavBufferFrames] using
      Int.ceil_lt_add_one ((44100 : ℚ) * calculateDuration tracks ticksPerBeat)
  have hmul := mul_le_mul_of_nonneg_left hbeyond (by norm_num : (0 : ℚ) ≤ 44100)
  have hexp : (44100 : ℚ) * (calculateDuration tracks ticksPerBeat + 1 / 44100) =
      44100 * calculateDuration tracks ticksPerBeat + 1 := by ring
  linarith

/-- Witness for C10 (amended): the counterexample document at the stronger
tempo scale 40, where the note's scaled start clears the duration by more
than one sample period and indeed lands past the end of the buffer. -/
theorem c10_wav_buffer_overrun_witness :
    (0 : ℚ) < 40 ∧ (40 : ℚ) < 100 ∧
    (⟨1/3920, 60, 1/17640, 64/127⟩ : WavNote) ∈
      exportToWAVNotes [[.noteOn 9 0 60 64, .noteOff 11 0 60]] 44100 40
        (fun _ => JSVal.font 0) true (fun _ => 0) ∧
    calculateDuration [[.noteOn 9 0 60 64, .noteOff 11 0 60]] 44100 + 1 / 44100 ≤
      (⟨1/3920, 60, 1/17640, 64/127⟩ : WavNote).startTime ∧
    ((wavBufferFrames [[.noteOn 9 0 60 64, .noteOff 11 0 60]] 44100 : ℤ) : ℚ) ≤
      44100 * (⟨1/3920, 60, 1/17640, 64/127⟩ : WavNote).startTime :=
  ⟨by norm_num, by norm_num,
    by norm_num [exportToWAVNotes, wavGo, collectTempoChanges, sortTempoChanges,
      ticksToSeconds, ticksToSecondsGo, JSVal.truthy],
    by norm_num [calculateDuration, collectTempoChanges, sortTempoChanges, MIDIEvent.time,
      ticksToSeconds, ticksToSecondsGo],
    c10_wav_buffer_overrun [[.noteOn 9 0 60 64, .noteOff 11 0 60]] 44100 40
      (fun _ => JSVal.font 0) true (fun _ => 0) ⟨1/3920, 60, 1/17640, 64/127⟩
      (by norm_num) (by norm_num)
      (by norm_num [exportToWAVNotes, wavGo, collectTempoChanges, sortTempoChanges,
        ticksToSeconds, ticksToSecondsGo, JSVal.truthy])
      (by norm_num [calculateDuration, collectTempoChanges, sortTempoChanges, MIDIEvent.time,
        ticksToSeconds, ticksToSecondsGo])⟩
